import Mathlib

/-!
Verification of the ticker resolver in `scripts/markets.py`.

The script's one function, `trova_prezzo_robusto`, takes a root ticker,
builds six candidate symbols (five European exchange suffixes plus the bare
root), and queries a remote quote provider for each in order until one
returns non-empty 5-day price history.  On a match it fetches metadata
(long name, currency) with graceful fallbacks, classifies the name by an
ordered keyword scan, and returns a result dictionary; if every candidate
fails it returns `{trovato: False}`.

The quote provider (yfinance) is modelled as a pair of functions from
symbols to `Except`-wrapped answers: `history` returns the list of closing
prices of the trailing 5-day window (an exception in the Python code is an
`Except.error`), and `info` returns optional metadata fields (`dict.get`
with a default is modelled by `Option.getD`).  The resolver also returns
the ordered trace of provider requests it issued, so that the query-count
and query-order claims can be stated.  Prices are modelled as integers:
no arithmetic is performed on them, they are only moved around.
-/

namespace Markets


/-- A closing price.  The code only copies prices, never computes with
them, so an integer stands in for the provider's numeric type. -/
abbrev Price := Int

/-- Descriptive metadata for a symbol, as returned by the provider's
`info` endpoint: each field may be absent (`dict.get` misses). -/
structure Metadata where
  longName : Option String
  currency : Option String
deriving DecidableEq

/-- The quote provider (yfinance viewed through the script): `history`
answers the trailing 5-day closing-price series for a symbol, `info` the
descriptive metadata.  `Except.error` models a raised exception. -/
structure Provider where
  history : String → Except Unit (List Price)
  info : String → Except Unit Metadata

/-- Result dictionary of the lookup: either `{trovato: False}` or the full
`{trovato: True, simbolo, prezzo, nome, cat, valuta}` record. -/
inductive QuoteResult where
  | notFound : QuoteResult
  | found (simbolo : String) (prezzo : Price) (nome : String)
      (cat : String) (valuta : String) : QuoteResult
deriving DecidableEq

/-- One outbound provider request: a price-history request or a metadata
request for a symbol. -/
inductive Query where
  | history (simbolo : String) : Query
  | info (simbolo : String) : Query
deriving DecidableEq

/-- Truth of `pat` being an initial segment of `l`. -/
def startsHere : List Char → List Char → Bool
  | [], _ => true
  | _ :: _, [] => false
  | p :: ps, h :: hs => p == h && startsHere ps hs

/-- Truth of `pat` occurring contiguously in `l`: Python's substring
test `pat in l`. -/
def occursIn (pat : List Char) : List Char → Bool
  | [] => startsHere pat []
  | h :: hs => startsHere pat (h :: hs) || occursIn pat hs

/-- Python's `pat in s` substring test on strings. -/
def containsSub (s pat : String) : Bool :=
  occursIn pat.data s.data

/-- Python's `str.upper()` (ASCII case map, as used on the names here). -/
def maiuscolo (s : String) : String :=
  ⟨s.data.map Char.toUpper⟩

/-- The category deduction of `markets.py` lines 44-50: an ordered keyword
scan over the uppercased display name, first match wins, defaulting to
`"Generico"`. -/
def categoria (nome : String) : String :=
  let n := maiuscolo nome
  if containsSub n "MSCI WORLD" || containsSub n "GLOBAL" then "🌍 Azionario Mondo"
  else if containsSub n "S&P 500" || containsSub n "USA" then "🇺🇸 Azionario USA"
  else if containsSub n "BOND" then "🏛️ Obbligazionario"
  else if containsSub n "EMERGING" then "🐯 Emergenti"
  else "Generico"

/-- The candidate list of `markets.py` lines 13-20: Milan, Paris, Germany,
Amsterdam, London, then the bare (US) symbol, in that fixed order. -/
def possibili_ticker (ticker_input : String) : List String :=
  [ticker_input ++ ".MI",
   ticker_input ++ ".PA",
   ticker_input ++ ".DE",
   ticker_input ++ ".AS",
   ticker_input ++ ".L",
   ticker_input]

/-- The body of the candidate loop (`markets.py` lines 25-63) for one
candidate symbol: fetch the 5-day history; on exception or empty history
yield `none` (the Python `continue`); otherwise take the last closing
price, fetch metadata inside the inner `try` (on success `dict.get` with
defaults `simbolo` and `"EUR"`, on exception fall back to `simbolo` and
`"?"`), classify, and yield the result.  The second component is the trace
of provider requests this iteration issued. -/
def provaSimbolo (p : Provider) (simbolo : String) :
    Option QuoteResult × List Query :=
  match p.history simbolo with
  | .error _ => (none, [Query.history simbolo])
  | .ok storia =>
    if storia.isEmpty then
      (none, [Query.history simbolo])
    else
      let prezzo := storia.getLast?.getD 0
      match p.info simbolo with
      | .ok i =>
        let nome := i.longName.getD simbolo
        let valuta := i.currency.getD "EUR"
        (some (QuoteResult.found simbolo prezzo nome (categoria nome) valuta),
          [Query.history simbolo, Query.info simbolo])
      | .error _ =>
        (some (QuoteResult.found simbolo prezzo simbolo (categoria simbolo) "?"),
          [Query.history simbolo, Query.info simbolo])

/-- The candidate loop (`markets.py` lines 24-65): try each candidate in
order, return the first hit, `{trovato: False}` if the list is exhausted.
Also accumulates the ordered trace of provider requests. -/
def cerca (p : Provider) : List String → QuoteResult × List Query
  | [] => (QuoteResult.notFound, [])
  | simbolo :: resto =>
    match provaSimbolo p simbolo with
    | (some r, qs) => (r, qs)
    | (none, qs) =>
      let next := cerca p resto
      (next.1, qs ++ next.2)

/-- The function `trova_prezzo_robusto` (`markets.py` lines 4-65), over an
explicit provider: run the candidate loop on the six candidates of the
input. -/
def trova_prezzo_robusto (p : Provider) (ticker_input : String) :
    QuoteResult × List Query :=
  cerca p (possibili_ticker ticker_input)

/-- Python's `str.strip()`: drop whitespace from both ends. -/
def strip (s : String) : String :=
  ⟨((s.data.dropWhile Char.isWhitespace).reverse.dropWhile
      Char.isWhitespace).reverse⟩

/-- The input normalization of the `__main__` block (`markets.py` line
68): `input(...).upper().strip()`. -/
def leggi_ticker (raw : String) : String :=
  strip (maiuscolo raw)

/-- The lookup pipeline of the `__main__` block: normalize the raw input,
then resolve it. -/
def main_risultato (p : Provider) (raw : String) : QuoteResult × List Query :=
  trova_prezzo_robusto p (leggi_ticker raw)

/-- A candidate "has data": its history request succeeds with a non-empty
series.  This is exactly the condition under which the loop stops at it. -/
def histOk (p : Provider) (s : String) : Bool :=
  match p.history s with
  | .ok l => !l.isEmpty
  | .error _ => false

/-- The symbols of the price-history requests in a trace, in order. -/
def histQueries : List Query → List String
  | [] => []
  | Query.history s :: qs => s :: histQueries qs
  | Query.info _ :: qs => histQueries qs

/-- The symbols of the metadata requests in a trace, in order. -/
def infoQueries : List Query → List String
  | [] => []
  | Query.history _ :: qs => infoQueries qs
  | Query.info s :: qs => s :: infoQueries qs

/-- The symbol of a result, when it is a successful one. -/
def simboloDi : QuoteResult → Option String
  | QuoteResult.notFound => none
  | QuoteResult.found s _ _ _ _ => some s

/-- A provider stub that has data only for the third candidate of
`"MWRD"`: `"MWRD.DE"`. -/
def stubDE : Provider where
  history := fun s => if s = "MWRD.DE" then Except.ok [100] else Except.ok []
  info := fun _ => Except.ok ⟨some "iShares MSCI World ETF", some "EUR"⟩

/-- A provider stub whose every request raises. -/
def stubErrore : Provider where
  history := fun _ => Except.error ()
  info := fun _ => Except.error ()

/-- A provider stub with data for the first candidate of `"MWRD"` whose
metadata endpoint always raises. -/
def stubInfoErrore : Provider where
  history := fun s => if s = "MWRD.MI" then Except.ok [7, 9] else Except.ok []
  info := fun _ => Except.error ()

/-- A provider stub with a two-bar history for the first candidate. -/
def stubPrezzi : Provider where
  history := fun s => if s = "MWRD.MI" then Except.ok [3, 7] else Except.ok []
  info := fun _ => Except.ok ⟨some "Foo", some "USD"⟩

/-- Two calls of the resolver against the same stubbed data, modelled as
two textually identical providers. -/
def stubGemello1 : Provider where
  history := fun s => if s = "MWRD.PA" then Except.ok [42] else Except.error ()
  info := fun _ => Except.ok ⟨some "Amundi MSCI World", some "EUR"⟩

/-- Second, identical copy of the stubbed data for the repeat call. -/
def stubGemello2 : Provider where
  history := fun s => if s = "MWRD.PA" then Except.ok [42] else Except.error ()
  info := fun _ => Except.ok ⟨some "Amundi MSCI World", some "EUR"⟩

/-- A provider stub with data for the first candidate whose metadata
succeeds but carries neither a long name nor a currency. -/
def stubSenzaCampi : Provider where
  history := fun s => if s = "MWRD.MI" then Except.ok [9] else Except.ok []
  info := fun _ => Except.ok ⟨none, none⟩

lemma provaSimbolo_none (p : Provider) (c : String) (h : histOk p c = false) :
    provaSimbolo p c = (none, [Query.history c]) := by
  unfold histOk at h
  cases hh : p.history c with
  | error e => simp [provaSimbolo, hh]
  | ok l =>
    rw [hh] at h
    simp only [Bool.not_eq_false'] at h
    simp [provaSimbolo, hh, h]

lemma provaSimbolo_some (p : Provider) (c : String) (h : histOk p c = true) :
    ∃ r, provaSimbolo p c = (some r, [Query.history c, Query.info c]) ∧
      simboloDi r = some c := by
  unfold histOk at h
  cases hh : p.history c with
  | error e => rw [hh] at h; simp at h
  | ok l =>
    rw [hh] at h
    simp only [Bool.not_eq_true'] at h
    cases hi : p.info c with
    | ok md =>
      refine ⟨QuoteResult.found c (l.getLast?.getD 0) (md.longName.getD c)
        (categoria (md.longName.getD c)) (md.currency.getD "EUR"), ?_, rfl⟩
      simp [provaSimbolo, hh, h, hi]
    | error e =>
      refine ⟨QuoteResult.found c (l.getLast?.getD 0) c (categoria c) "?", ?_, rfl⟩
      simp [provaSimbolo, hh, h, hi]

lemma cerca_all_fail (p : Provider) : ∀ (cs : List String),
    (cs.all fun c => !histOk p c) = true →
    cerca p cs = (QuoteResult.notFound, cs.map Query.history) := by
  intro cs
  induction cs with
  | nil => intro _; simp [cerca]
  | cons c0 resto ih =>
    intro h
    simp only [List.all_cons, Bool.and_eq_true] at h
    obtain ⟨hc, hrest⟩ := h
    have hc' : histOk p c0 = false := by simpa using hc
    simp [cerca, provaSimbolo_none p c0 hc', ih hrest]

lemma cerca_find (p : Provider) : ∀ (cs : List String),
    simboloDi (cerca p cs).1 = cs.find? fun c => histOk p c := by
  intro cs
  induction cs with
  | nil => simp [cerca, simboloDi]
  | cons c0 resto ih =>
    cases hc : histOk p c0 with
    | true =>
      obtain ⟨r, hpr, hs⟩ := provaSimbolo_some p c0 hc
      simp [cerca, hpr, hs, List.find?, hc]
    | false =>
      simp [cerca, provaSimbolo_none p c0 hc, List.find?, hc, ih]

lemma cerca_first_match (p : Provider) : ∀ (cs : List String) (i : Nat),
    i < cs.length →
    ((cs.take i).all fun c => !histOk p c) = true →
    histOk p (cs.getD i "") = true →
    ∃ r, provaSimbolo p (cs.getD i "") =
        (some r, [Query.history (cs.getD i ""), Query.info (cs.getD i "")]) ∧
      simboloDi r = some (cs.getD i "") ∧
      cerca p cs = (r, (cs.take i).map Query.history ++
        [Query.history (cs.getD i ""), Query.info (cs.getD i "")]) := by
  intro cs
  induction cs with
  | nil => intro i hi; simp at hi
  | cons c0 resto ih =>
    intro i hi hprev hok
    cases i with
    | zero =>
      simp only [List.getD_cons_zero] at hok ⊢
      obtain ⟨r, hpr, hs⟩ := provaSimbolo_some p c0 hok
      refine ⟨r, hpr, hs, ?_⟩
      simp [cerca, hpr]
    | succ j =>
      simp only [List.take_succ_cons, List.all_cons, Bool.and_eq_true] at hprev
      obtain ⟨hc, hprev⟩ := hprev
      have hc' : histOk p c0 = false := by simpa using hc
      simp only [List.getD_cons_succ] at hok ⊢
      obtain ⟨r, hpr, hs, hrec⟩ := ih j (by simpa using hi) hprev hok
      refine ⟨r, hpr, hs, ?_⟩
      simp [cerca, provaSimbolo_none p c0 hc', hrec]

lemma cerca_trace (p : Provider) : ∀ (cs : List String),
    ∃ k, k ≤ cs.length ∧
      histQueries (cerca p cs).2 = cs.take k ∧
      infoQueries (cerca p cs).2 = (simboloDi (cerca p cs).1).toList := by
  intro cs
  induction cs with
  | nil => exact ⟨0, by simp, by simp [cerca, histQueries], by simp [cerca, infoQueries, simboloDi]⟩
  | cons c0 resto ih =>
    cases hc : histOk p c0 with
    | true =>
      obtain ⟨r, hpr, hs⟩ := provaSimbolo_some p c0 hc
      refine ⟨1, by simp, ?_, ?_⟩
      · simp [cerca, hpr, histQueries]
      · simp [cerca, hpr, infoQueries, hs]
    | false =>
      obtain ⟨k, hk, h1, h2⟩ := ih
      refine ⟨k + 1, by simpa using hk, ?_, ?_⟩
      · simp [cerca, provaSimbolo_none p c0 hc, histQueries, h1]
      · simp [cerca, provaSimbolo_none p c0 hc, infoQueries, h2]

lemma cerca_found_inv (p : Provider) : ∀ (cs : List String) (s n c v : String) (pr : Price),
    (cerca p cs).1 = QuoteResult.found s pr n c v →
    c = categoria n ∧
    (∃ closes, p.history s = Except.ok closes ∧ closes.isEmpty = false ∧
      pr = closes.getLast?.getD 0) ∧
    (∀ md : Metadata, p.info s = Except.ok md →
      n = md.longName.getD s ∧ v = md.currency.getD "EUR") ∧
    (p.info s = Except.error () → n = s ∧ v = "?") := by
  intro cs
  induction cs with
  | nil => intro s n c v pr h; simp [cerca] at h
  | cons c0 resto ih =>
    intro s n c v pr h
    cases hp : p.history c0 with
    | error e =>
      rw [cerca, provaSimbolo_none p c0 (by simp [histOk, hp])] at h
      exact ih s n c v pr h
    | ok storia =>
      cases he : storia.isEmpty with
      | true =>
        rw [cerca, provaSimbolo_none p c0 (by simp [histOk, hp, he])] at h
        exact ih s n c v pr h
      | false =>
        cases hi : p.info c0 with
        | ok md =>
          have hps : provaSimbolo p c0 = (some (QuoteResult.found c0 (storia.getLast?.getD 0)
              (md.longName.getD c0) (categoria (md.longName.getD c0)) (md.currency.getD "EUR")),
              [Query.history c0, Query.info c0]) := by
            simp [provaSimbolo, hp, he, hi]
          rw [cerca, hps] at h
          have h' : QuoteResult.found c0 (storia.getLast?.getD 0) (md.longName.getD c0)
              (categoria (md.longName.getD c0)) (md.currency.getD "EUR") =
              QuoteResult.found s pr n c v := h
          simp only [QuoteResult.found.injEq] at h'
          obtain ⟨hs, hpr, hn, hcc, hv⟩ := h'
          subst hs; subst hpr; subst hn; subst hcc; subst hv
          refine ⟨rfl, ⟨storia, hp, he, rfl⟩, ?_, ?_⟩
          · intro md' hmd'
            rw [hi] at hmd'
            cases hmd'
            exact ⟨rfl, rfl⟩
          · intro herr
            rw [hi] at herr
            cases herr
        | error e =>
          have hps : provaSimbolo p c0 = (some (QuoteResult.found c0 (storia.getLast?.getD 0)
              c0 (categoria c0) "?"), [Query.history c0, Query.info c0]) := by
            simp [provaSimbolo, hp, he, hi]
          rw [cerca, hps] at h
          have h' : QuoteResult.found c0 (storia.getLast?.getD 0) c0 (categoria c0) "?" =
              QuoteResult.found s pr n c v := h
          simp only [QuoteResult.found.injEq] at h'
          obtain ⟨hs, hpr, hn, hcc, hv⟩ := h'
          subst hs; subst hpr; subst hn; subst hcc; subst hv
          refine ⟨rfl, ⟨storia, hp, he, rfl⟩, ?_, ?_⟩
          · intro md' hmd'
            rw [hi] at hmd'
            cases hmd'
          · intro _
            exact ⟨rfl, rfl⟩

lemma append_data_ne (root : String) {a b : String} (hab : a.data ≠ b.data) :
    root ++ a ≠ root ++ b := by
  intro h
  apply hab
  have h2 := congrArg String.data h
  simpa using h2

lemma append_ne_self (root : String) {a : String} (ha : a.data ≠ []) :
    root ++ a ≠ root := by
  intro h
  apply ha
  have h2 := congrArg String.data h
  simpa using h2

lemma possibili_nodup (root : String) : (possibili_ticker root).Nodup := by
  simp only [possibili_ticker, List.nodup_cons, List.mem_cons, List.not_mem_nil, or_false,
    List.nodup_nil, and_true]
  push_neg
  and_intros <;>
    first
      | exact append_data_ne root (by decide)
      | exact append_ne_self root (by decide)
      | trivial

lemma take_getD_succ : ∀ (l : List String) (i : Nat), i < l.length →
    l.take (i + 1) = l.take i ++ [l.getD i ""] := by
  intro l
  induction l with
  | nil => intro i hi; simp at hi
  | cons a l ih =>
    intro i hi
    cases i with
    | zero => simp
    | succ j =>
      simp only [List.take_succ_cons, List.getD_cons_succ]
      rw [ih j (by simpa using hi)]
      simp

lemma histQueries_append (a b : List Query) :
    histQueries (a ++ b) = histQueries a ++ histQueries b := by
  induction a with
  | nil => simp [histQueries]
  | cons q qs ih => cases q <;> simp [histQueries, ih]

lemma histQueries_map_history (l : List String) :
    histQueries (l.map Query.history) = l := by
  induction l with
  | nil => simp [histQueries]
  | cons a l ih => simp [histQueries, ih]

/-- C1: for every root ticker, the resolver works through the fixed
candidate list `[root.MI, root.PA, root.DE, root.AS, root.L, root]`
strictly in order: if the first `i` candidates have no data and candidate
`i` does, the result's symbol is candidate `i` and the price-history
requests issued are exactly the first `i + 1` candidates in order (so no
candidate after the first match is queried). -/
theorem C1_candidates_in_order_first_match (p : Provider) (root : String) (i : Nat)
    (hi : i < 6)
    (hprev : (((possibili_ticker root).take i).all fun c => !histOk p c) = true)
    (hok : histOk p ((possibili_ticker root).getD i "") = true) :
    simboloDi (trova_prezzo_robusto p root).1 =
        some ((possibili_ticker root).getD i "") ∧
      histQueries (trova_prezzo_robusto p root).2 =
        (possibili_ticker root).take (i + 1) := by
  have hlen : i < (possibili_ticker root).length := by
    simpa [possibili_ticker] using hi
  obtain ⟨r, hpr, hs, hc⟩ := cerca_first_match p (possibili_ticker root) i hlen hprev hok
  rw [trova_prezzo_robusto, hc]
  refine ⟨hs, ?_⟩
  rw [take_getD_succ _ i hlen, histQueries_append, histQueries_map_history]
  simp [histQueries]

/-- Witness for C1 at the stub with data only for the third candidate:
the result's symbol is `"MWRD.DE"` and exactly the first three candidates
were queried, in order. -/
theorem C1_witness :
    simboloDi (trova_prezzo_robusto stubDE "MWRD").1 = some "MWRD.DE" ∧
      histQueries (trova_prezzo_robusto stubDE "MWRD").2 =
        ["MWRD.MI", "MWRD.PA", "MWRD.DE"] :=
  C1_candidates_in_order_first_match stubDE "MWRD" 2 (by decide) (by decide) (by decide)

/-- C2: if the provider yields empty history or an error for all six
candidates, the resolver returns `{trovato: False}`.  The embedding is a
total function (per-candidate exceptions are values of the provider
model), so no exception can reach the caller. -/
theorem C2_all_fail_not_found (p : Provider) (root : String)
    (h : ((possibili_ticker root).all fun c => !histOk p c) = true) :
    (trova_prezzo_robusto p root).1 = QuoteResult.notFound := by
  rw [trova_prezzo_robusto, cerca_all_fail p _ h]

/-- Witness for C2: the always-raising stub yields `{trovato: False}`. -/
theorem C2_witness :
    (trova_prezzo_robusto stubErrore "MWRD").1 = QuoteResult.notFound :=
  C2_all_fail_not_found stubErrore "MWRD" (by decide)

/-- C3: the category is the ordered keyword scan over the uppercased
display name — World/Global first, then S&P 500/USA, then Bond, then
Emerging, else the default — first match wins (so a name holding both
"MSCI WORLD" and "EMERGING" classifies as World Equity), and every
successful lookup's category field is this scan of its name field. -/
theorem C3_classification_priority :
    (∀ nome : String,
      (containsSub (maiuscolo nome) "MSCI WORLD" ||
        containsSub (maiuscolo nome) "GLOBAL") = true →
      categoria nome = "🌍 Azionario Mondo") ∧
    (∀ nome : String,
      (containsSub (maiuscolo nome) "MSCI WORLD" ||
        containsSub (maiuscolo nome) "GLOBAL") = false →
      (containsSub (maiuscolo nome) "S&P 500" ||
        containsSub (maiuscolo nome) "USA") = true →
      categoria nome = "🇺🇸 Azionario USA") ∧
    (∀ nome : String,
      (containsSub (maiuscolo nome) "MSCI WORLD" ||
        containsSub (maiuscolo nome) "GLOBAL") = false →
      (containsSub (maiuscolo nome) "S&P 500" ||
        containsSub (maiuscolo nome) "USA") = false →
      containsSub (maiuscolo nome) "BOND" = true →
      categoria nome = "🏛️ Obbligazionario") ∧
    (∀ nome : String,
      (containsSub (maiuscolo nome) "MSCI WORLD" ||
        containsSub (maiuscolo nome) "GLOBAL") = false →
      (containsSub (maiuscolo nome) "S&P 500" ||
        containsSub (maiuscolo nome) "USA") = false →
      containsSub (maiuscolo nome) "BOND" = false →
      containsSub (maiuscolo nome) "EMERGING" = true →
      categoria nome = "🐯 Emergenti") ∧
    (∀ nome : String,
      (containsSub (maiuscolo nome) "MSCI WORLD" ||
        containsSub (maiuscolo nome) "GLOBAL") = false →
      (containsSub (maiuscolo nome) "S&P 500" ||
        containsSub (maiuscolo nome) "USA") = false →
      containsSub (maiuscolo nome) "BOND" = false →
      containsSub (maiuscolo nome) "EMERGING" = false →
      categoria nome = "Generico") ∧
    categoria "MSCI WORLD EMERGING MARKETS FUND" = "🌍 Azionario Mondo" ∧
    (∀ (p : Provider) (root s n c v : String) (pr : Price),
      (trova_prezzo_robusto p root).1 = QuoteResult.found s pr n c v →
      c = categoria n) := by
  refine ⟨?_, ?_, ?_, ?_, ?_, by decide, ?_⟩
  · intro nome h1
    simp [categoria, h1]
  · intro nome h1 h2
    simp [categoria, h1, h2]
  · intro nome h1 h2 h3
    simp [categoria, h1, h2, h3]
  · intro nome h1 h2 h3 h4
    simp [categoria, h1, h2, h3, h4]
  · intro nome h1 h2 h3 h4
    simp [categoria, h1, h2, h3, h4]
  · intro p root s n c v pr h
    exact (cerca_found_inv p (possibili_ticker root) s n c v pr h).1

/-- Witness for C3: a name holding both a World keyword and an Emerging
keyword classifies as World Equity. -/
theorem C3_witness :
    categoria "VANGUARD GLOBAL EMERGING FUND" = "🌍 Azionario Mondo" :=
  C3_classification_priority.1 "VANGUARD GLOBAL EMERGING FUND" (by decide)

/-- C4: if the matched candidate's metadata fetch raises, the lookup still
succeeds with that candidate's last closing price, the candidate symbol
itself as the name, and the `"?"` currency sentinel. -/
theorem C4_metadata_error_fallback (p : Provider) (root : String) (i : Nat)
    (hi : i < 6)
    (hprev : (((possibili_ticker root).take i).all fun c => !histOk p c) = true)
    (closes : List Price)
    (hh : p.history ((possibili_ticker root).getD i "") = Except.ok closes)
    (hne : closes.isEmpty = false)
    (herr : p.info ((possibili_ticker root).getD i "") = Except.error ()) :
    (trova_prezzo_robusto p root).1 =
      QuoteResult.found ((possibili_ticker root).getD i "")
        (closes.getLast?.getD 0)
        ((possibili_ticker root).getD i "")
        (categoria ((possibili_ticker root).getD i ""))
        "?" := by
  have hlen : i < (possibili_ticker root).length := by
    simpa [possibili_ticker] using hi
  have hok : histOk p ((possibili_ticker root).getD i "") = true := by
    unfold histOk
    rw [hh]
    simp [hne]
  obtain ⟨r, hpr, _, hc⟩ := cerca_first_match p (possibili_ticker root) i hlen hprev hok
  have hps : provaSimbolo p ((possibili_ticker root).getD i "") =
      (some (QuoteResult.found ((possibili_ticker root).getD i "")
        (closes.getLast?.getD 0) ((possibili_ticker root).getD i "")
        (categoria ((possibili_ticker root).getD i "")) "?"),
        [Query.history ((possibili_ticker root).getD i ""),
         Query.info ((possibili_ticker root).getD i "")]) := by
    unfold provaSimbolo
    rw [hh, herr]
    simp [hne]
  rw [hps] at hpr
  have h1 := congrArg Prod.fst hpr
  have h2 := Option.some.inj h1
  rw [trova_prezzo_robusto, hc]
  exact h2.symm

/-- Witness for C4: with a raising metadata endpoint the lookup still
succeeds, the name falls back to the symbol and the currency to `"?"`. -/
theorem C4_witness :
    (trova_prezzo_robusto stubInfoErrore "MWRD").1 =
      QuoteResult.found "MWRD.MI" 9 "MWRD.MI" "Generico" "?" :=
  C4_metadata_error_fallback stubInfoErrore "MWRD" 0 (by decide) (by decide)
    [7, 9] (by rfl) (by decide) (by rfl)

/-- C5: the price of every successful lookup is the most recent (last)
closing price of the matched symbol's trailing 5-day history as the
provider returned it. -/
theorem C5_price_is_last_close (p : Provider) (root s n c v : String) (pr : Price)
    (h : (trova_prezzo_robusto p root).1 = QuoteResult.found s pr n c v) :
    ∃ closes, p.history s = Except.ok closes ∧ closes.isEmpty = false ∧
      pr = closes.getLast?.getD 0 := by
  exact (cerca_found_inv p (possibili_ticker root) s n c v pr h).2.1

/-- Witness for C5: the returned price 7 is the last close of the matched
candidate's history `[3, 7]`. -/
theorem C5_witness :
    ∃ closes, stubPrezzi.history "MWRD.MI" = Except.ok closes ∧
      closes.isEmpty = false ∧ (7 : Price) = closes.getLast?.getD 0 :=
  C5_price_is_last_close stubPrezzi "MWRD" "MWRD.MI" "Foo" "Generico" "USD" 7 (by decide)

/-- C6: the symbol of the result is exactly the first candidate with
non-empty recoverable history (`List.find?` over the fixed candidate
list), so at most one candidate succeeds; and `{trovato: False}` holds
exactly when every one of the six candidates has no recoverable history. -/
theorem C6_first_success_iff_not_found (p : Provider) (root : String) :
    simboloDi (trova_prezzo_robusto p root).1 =
        ((possibili_ticker root).find? fun c => histOk p c) ∧
      ((trova_prezzo_robusto p root).1 = QuoteResult.notFound ↔
        ∀ c ∈ possibili_ticker root, histOk p c = false) := by
  have h := cerca_find p (possibili_ticker root)
  rw [trova_prezzo_robusto]
  refine ⟨h, ?_, ?_⟩
  · intro hn
    rw [hn] at h
    simp only [simboloDi] at h
    have hall := List.find?_eq_none.mp h.symm
    intro c hc
    simpa using hall c hc
  · intro hall
    have hfn : ((possibili_ticker root).find? fun c => histOk p c) = none :=
      List.find?_eq_none.mpr fun c hc => by simp [hall c hc]
    rw [hfn] at h
    cases hr : (cerca p (possibili_ticker root)).1 with
    | notFound => rfl
    | found s pr n c v => rw [hr] at h; simp [simboloDi] at h

/-- C7: the `__main__` pipeline uppercases and strips the raw input
before building candidates, so the raw inputs `" mwrd "` and `"MWRD"`
give identical candidate lists and identical lookup results. -/
theorem C7_normalizzazione (p : Provider) :
    possibili_ticker (leggi_ticker " mwrd ") =
        possibili_ticker (leggi_ticker "MWRD") ∧
      main_risultato p " mwrd " = main_risultato p "MWRD" := by
  have h : leggi_ticker " mwrd " = leggi_ticker "MWRD" := by decide
  refine ⟨by rw [h], ?_⟩
  unfold main_risultato
  rw [h]

/-- C8: in any run, each symbol is the target of at most one
price-history request, at most six price-history requests are issued in
total, and the metadata requests are exactly one for the matched symbol
(none when the lookup fails). -/
theorem C8_query_budget (p : Provider) (root : String) :
    (∀ c : String, (histQueries (trova_prezzo_robusto p root).2).count c ≤ 1) ∧
      (histQueries (trova_prezzo_robusto p root).2).length ≤ 6 ∧
      infoQueries (trova_prezzo_robusto p root).2 =
        (simboloDi (trova_prezzo_robusto p root).1).toList := by
  obtain ⟨k, hk, h1, h2⟩ := cerca_trace p (possibili_ticker root)
  rw [trova_prezzo_robusto]
  refine ⟨?_, ?_, h2⟩
  · intro c
    rw [h1]
    have hnd : ((possibili_ticker root).take k).Nodup :=
      List.Nodup.sublist (List.take_sublist k _) (possibili_nodup root)
    exact List.nodup_iff_count_le_one.mp hnd c
  · rw [h1]
    have hle : ((possibili_ticker root).take k).length ≤ (possibili_ticker root).length :=
      List.Sublist.length_le (List.take_sublist k _)
    have h6 : (possibili_ticker root).length = 6 := by simp [possibili_ticker]
    rw [h6] at hle
    exact hle

/-- C9: the resolver is a deterministic function of the provider's
responses: two providers that answer every history and metadata request
identically give identical results and traces. -/
theorem C9_deterministico (p₁ p₂ : Provider) (root : String)
    (hh : ∀ s, p₁.history s = p₂.history s)
    (hi : ∀ s, p₁.info s = p₂.info s) :
    trova_prezzo_robusto p₁ root = trova_prezzo_robusto p₂ root := by
  have hp : p₁ = p₂ := by
    cases p₁
    cases p₂
    simp only [Provider.mk.injEq]
    exact ⟨funext hh, funext hi⟩
  rw [hp]

/-- Witness for C9: the two identical stubbed calls agree. -/
theorem C9_witness :
    trova_prezzo_robusto stubGemello1 "MWRD" = trova_prezzo_robusto stubGemello2 "MWRD" :=
  C9_deterministico stubGemello1 stubGemello2 "MWRD" (fun _ => rfl) (fun _ => rfl)

/-- C10: two distinct metadata fallbacks exist.  When the metadata fetch
succeeds but lacks the long-name and currency fields, the name defaults
to the candidate symbol and the currency to `"EUR"`; the `"?"` sentinel
appears only when the metadata fetch itself raises. -/
theorem C10_metadata_field_defaults (p : Provider) (root : String) (i : Nat)
    (hi : i < 6)
    (hprev : (((possibili_ticker root).take i).all fun c => !histOk p c) = true)
    (closes : List Price)
    (hh : p.history ((possibili_ticker root).getD i "") = Except.ok closes)
    (hne : closes.isEmpty = false) :
    (∀ md : Metadata, p.info ((possibili_ticker root).getD i "") = Except.ok md →
      md.longName = none → md.currency = none →
      (trova_prezzo_robusto p root).1 =
        QuoteResult.found ((possibili_ticker root).getD i "")
          (closes.getLast?.getD 0)
          ((possibili_ticker root).getD i "")
          (categoria ((possibili_ticker root).getD i ""))
          "EUR") ∧
    (p.info ((possibili_ticker root).getD i "") = Except.error () →
      (trova_prezzo_robusto p root).1 =
        QuoteResult.found ((possibili_ticker root).getD i "")
          (closes.getLast?.getD 0)
          ((possibili_ticker root).getD i "")
          (categoria ((possibili_ticker root).getD i ""))
          "?") := by
  have hlen : i < (possibili_ticker root).length := by
    simpa [possibili_ticker] using hi
  have hok : histOk p ((possibili_ticker root).getD i "") = true := by
    unfold histOk
    rw [hh]
    simp [hne]
  obtain ⟨r, hpr, _, hc⟩ := cerca_first_match p (possibili_ticker root) i hlen hprev hok
  constructor
  · intro md hmd hn hcur
    have hps : provaSimbolo p ((possibili_ticker root).getD i "") =
        (some (QuoteResult.found ((possibili_ticker root).getD i "")
          (closes.getLast?.getD 0)
          (md.longName.getD ((possibili_ticker root).getD i ""))
          (categoria (md.longName.getD ((possibili_ticker root).getD i "")))
          (md.currency.getD "EUR")),
          [Query.history ((possibili_ticker root).getD i ""),
           Query.info ((possibili_ticker root).getD i "")]) := by
      unfold provaSimbolo
      rw [hh, hmd]
      simp [hne]
    rw [hn, hcur] at hps
    simp only [Option.getD_none] at hps
    rw [hps] at hpr
    have h1 := congrArg Prod.fst hpr
    have h2 := Option.some.inj h1
    rw [trova_prezzo_robusto, hc]
    exact h2.symm
  · intro herr
    have hps : provaSimbolo p ((possibili_ticker root).getD i "") =
        (some (QuoteResult.found ((possibili_ticker root).getD i "")
          (closes.getLast?.getD 0) ((possibili_ticker root).getD i "")
          (categoria ((possibili_ticker root).getD i "")) "?"),
          [Query.history ((possibili_ticker root).getD i ""),
           Query.info ((possibili_ticker root).getD i "")]) := by
      unfold provaSimbolo
      rw [hh, herr]
      simp [hne]
    rw [hps] at hpr
    have h1 := congrArg Prod.fst hpr
    have h2 := Option.some.inj h1
    rw [trova_prezzo_robusto, hc]
    exact h2.symm

/-- Witness for C10: with metadata present but fields missing, the name
falls back to the symbol and the currency to `"EUR"`, not `"?"`. -/
theorem C10_witness :
    (trova_prezzo_robusto stubSenzaCampi "MWRD").1 =
      QuoteResult.found "MWRD.MI" 9 "MWRD.MI" "Generico" "EUR" :=
  (C10_metadata_field_defaults stubSenzaCampi "MWRD" 0 (by decide) (by decide)
    [9] (by rfl) (by decide)).1 ⟨none, none⟩ (by rfl) rfl rfl

end Markets
